import Mathlib

/-!
# A shallow embedding of logger.cpp

The file models the single-threaded behaviour of the logging facility of logger.cpp:
the severity gate of the LOG statement, the message builder Log (constructor, Get,
preamble_, the insertions made by the caller, destructor) and the sink OutputPolicy
(SetStream, Output).

Conventions.

* A C++ char is a Char; a character string is a List Char.  A C string is the run of
  characters before the first NUL character.
* A FILE pointer is an Option Nat: none is the null pointer, some h is the address of
  a stream object.  For every stream object the model records the C library
  operations the program issued on it, in order; the stream content is the
  concatenation of the written runs.
* Undefined behaviour of the C++ code (indexing EnumToString outside its four entries,
  writing at index strlen - 1 of an empty C string) is the result none.
* std::mutex is not part of the state: in a sequential execution every ScopedLock
  acquires a free mutex and releases it at the end of its scope, without further effect.
* The result of ctime at the moment of a call is an argument of the call.
-/

namespace Logger

/-! ## Characters and C strings -/

/-- The terminator of C strings. -/
def NUL : Char := Char.ofNat 0

/-- The characters a reader of a C string sees when the memory holds cs followed by a
terminator: everything before the first NUL. -/
def c_str (cs : List Char) : List Char :=
  cs.takeWhile (fun c => c != NUL)

/-- The C library function strlen, on the memory cs followed by a terminator. -/
def strlen (cs : List Char) : Nat :=
  (c_str cs).length

/-! ## Severity levels (logger.cpp, lines 26-29) -/

/-- The enumeration log_level_t. -/
inductive log_level_t where
  | ERROR
  | WARN
  | INFO
  | DEBUG
  deriving DecidableEq, Repr

/-- The integer value of an enumerator of log_level_t. -/
def log_level_t.toNat : log_level_t → Nat
  | .ERROR => 0
  | .WARN => 1
  | .INFO => 2
  | .DEBUG => 3

/-- The table EnumToString, of four entries. -/
def EnumToString : List (List Char) :=
  [['E', 'R', 'R', 'O', 'R'], ['W', 'A', 'R', 'N'], ['I', 'N', 'F', 'O'], ['D', 'E', 'B', 'U', 'G']]

/-- The range of the type unsigned (the parameter type of Log::Get). -/
def UINT_RANGE : Nat := 2 ^ 32

/-! ## Streams -/

/-- One C library operation issued on a stream object. -/
inductive FileOp where
  | write (bytes : List Char)
  | flush
  | close
  deriving DecidableEq, Repr

/-- The bytes one operation adds to the content of a stream. -/
def FileOp.bytes : FileOp → List Char
  | .write bs => bs
  | .flush => []
  | .close => []

/-- The content of a stream: all bytes written to it, in order. -/
def content (ops : List FileOp) : List Char :=
  (ops.map FileOp.bytes).flatten

/-- The address of the stream object stderr. -/
def stderr : Nat := 2

/-! ## Program state -/

/-- The state a log call can read or change.  The fields outputs and builders are
instrumentation: the arguments of the invocations of OutputPolicy::Output so far, and
the number of Log objects constructed so far. -/
structure Sys (σ : Type) where
  /-- The operations issued so far on each stream object. -/
  files : Nat → List FileOp
  /-- The static variable pStream of OutputPolicy::StreamImpl. -/
  pStream : Option Nat
  /-- The static member Log::reportingLevel, of type size_t. -/
  reportingLevel : Nat
  /-- The arguments of the invocations of OutputPolicy::Output, in order. -/
  outputs : List (List Char)
  /-- The number of Log objects constructed. -/
  builders : Nat
  /-- The state of the calling code. -/
  user : σ

/-- The state at process start: the static initialisers of lines 50 and 97. -/
def Sys.init {σ : Type} (files : Nat → List FileOp) (user : σ) : Sys σ :=
  { files := files
    pStream := some stderr
    reportingLevel := log_level_t.INFO.toNat
    outputs := []
    builders := 0
    user := user }

/-! ## OutputPolicy (logger.cpp, lines 31-55) -/

/-- The statement std::fprintf(pStream, "%s", s): the conversion %s writes the C string at s. -/
def fprintf_s (ops : List FileOp) (s : List Char) : List FileOp :=
  ops ++ [FileOp.write (c_str s)]

/-- The statement std::fflush(pStream). -/
def fflush (ops : List FileOp) : List FileOp :=
  ops ++ [FileOp.flush]

/-- OutputPolicy::SetStream. -/
def OutputPolicy.SetStream {σ : Type} (pStream : Option Nat) (s : Sys σ) : Sys σ :=
  { s with pStream := pStream }

/-- OutputPolicy::Output.  The argument msg is a std::string, which may hold NUL
characters; msg.c_str() is its buffer followed by a terminator. -/
def OutputPolicy.Output {σ : Type} (msg : List Char) (s : Sys σ) : Sys σ :=
  let s1 := { s with outputs := s.outputs ++ [msg] }
  match s1.pStream with
  | none => s1
  | some h => { s1 with files := Function.update s1.files h (fflush (fprintf_s (s1.files h) msg)) }

/-- The destructor of OutputPolicy: fclose(StreamImpl()).  No object of the class is
created by the LOG statement, whose uses of OutputPolicy are static. -/
def OutputPolicy.dtor {σ : Type} (s : Sys σ) : Option (Sys σ) :=
  match s.pStream with
  | none => none
  | some h => some { s with files := Function.update s.files h (s.files h ++ [FileOp.close]) }

/-! ## Log (logger.cpp, lines 59-97) -/

/-- An object of class Log: its only data member besides the static ones is the
string buffer of oss_. -/
structure Log where
  oss_ : List Char
  deriving DecidableEq, Repr

/-- The constructor Log(): an empty string stream. -/
def Log.ctor : Log := ⟨[]⟩

/-- One insertion into oss_ with operator <<; frag is the text the insertion appends. -/
def Log.insert (self : Log) (frag : List Char) : Log :=
  ⟨self.oss_ ++ frag⟩

/-- Log::preamble_.  The argument time_cstr is the C string ctime returned.  The
assignment at index strlen - 1 needs a non-empty C string, the table lookup a level
below four. -/
def Log.preamble_ (self : Log) (level : Nat) (time_cstr : List Char) : Option Log :=
  if strlen time_cstr = 0 then none
  else
    let time_cstr1 := time_cstr.set (strlen time_cstr - 1) NUL
    match EnumToString[level]? with
    | none => none
    | some name =>
      some (((((self.insert [' ', '-', ' ']).insert name).insert [':', ' ']).insert
        (c_str time_cstr1)).insert [':', ' '])

/-- Log::Get. -/
def Log.Get (self : Log) (level : Nat) (time_cstr : List Char) : Option Log :=
  self.preamble_ level time_cstr

/-- The destructor of Log. -/
def Log.dtor {σ : Type} (self : Log) (s : Sys σ) : Sys σ :=
  OutputPolicy.Output self.oss_ s

/-! ## The LOG statement (logger.cpp, lines 101-105) -/

/-- The right operand of one operator << of the caller: evaluated in the state of the
caller, it may change that state, and yields the text the insertion appends. -/
abbrev Operand (σ : Type) := σ → σ × List Char

/-- A live builder together with the program state. -/
structure Cfg (σ : Type) where
  log : Log
  sys : Sys σ

/-- One step of the caller's chain: evaluate the operand, insert its text into oss_. -/
def Cfg.shift {σ : Type} (c : Cfg σ) (e : Operand σ) : Cfg σ :=
  let r := e c.sys.user
  { log := c.log.insert r.2, sys := { c.sys with user := r.1 } }

/-- The program state once the temporary logFILE() exists. -/
def Sys.construct {σ : Type} (s : Sys σ) : Sys σ :=
  { s with builders := s.builders + 1 }

/-- The statement LOG(level) << e1 << ... << en; where body = [e1, ..., en] and
time_cstr is what ctime returns during the call.  Get runs first, the operands are
evaluated from left to right, each followed by its insertion, and the temporary is
destroyed at the end of the full expression. -/
def LOG {σ : Type} (level : Nat) (time_cstr : List Char) (body : List (Operand σ))
    (s : Sys σ) : Option (Sys σ) :=
  if level > s.reportingLevel then some s
  else
    match Log.ctor.Get (level % UINT_RANGE) time_cstr with
    | none => none
    | some l =>
      let c := body.foldl Cfg.shift { log := l, sys := s.construct }
      some (c.log.dtor c.sys)

/-- One log statement of a program: its level, what ctime returns during it, and the operands. -/
structure Call (σ : Type) where
  level : Nat
  time_cstr : List Char
  body : List (Operand σ)

/-- A sequence of log statements, executed one after the other. -/
def runCalls {σ : Type} : List (Call σ) → Sys σ → Option (Sys σ)
  | [], s => some s
  | c :: cs, s =>
    match LOG c.level c.time_cstr c.body s with
    | none => none
    | some s1 => runCalls cs s1

/-! ## Reference notions used to state the properties -/

/-- The name of a level, by cases. -/
def levelName : log_level_t → List Char
  | .ERROR => "ERROR".toList
  | .WARN => "WARN".toList
  | .INFO => "INFO".toList
  | .DEBUG => "DEBUG".toList

/-- The texts the operands of a chain yield, in chain order. -/
def fragments {σ : Type} : List (Operand σ) → σ → List (List Char)
  | [], _ => []
  | e :: es, u => (e u).2 :: fragments es (e u).1

/-- The state of the caller after all operands of a chain were evaluated. -/
def userAfter {σ : Type} : List (Operand σ) → σ → σ
  | [], u => u
  | e :: es, u => userAfter es (e u).1

/-- An operand without effect that yields a fixed text. -/
def lit {σ : Type} (frag : List Char) : Operand σ :=
  fun u => (u, frag)

/-- The text Get leaves in oss_ for a level below four and a non-empty ctime string. -/
def preambleOf (name time_cstr : List Char) : List Char :=
  [' ', '-', ' '] ++ name ++ [':', ' '] ++
    c_str (time_cstr.set (strlen time_cstr - 1) NUL) ++ [':', ' ']

/-- The program state of an emitted statement just before the destructor runs: one
builder was constructed and the operands were evaluated. -/
def Sys.atDtor {σ : Type} (s : Sys σ) (body : List (Operand σ)) : Sys σ :=
  { s.construct with user := userAfter body s.user }

/-! ## Auxiliary facts -/

theorem c_str_eq_self (t : List Char) (h : NUL ∉ t) : c_str t = t := by
  unfold c_str
  rw [List.takeWhile_eq_self_iff]
  intro a ha
  have hne : a ≠ NUL := fun e => h (e ▸ ha)
  simpa using hne

theorem c_str_append_NUL (t r : List Char) (h : NUL ∉ t) : c_str (t ++ NUL :: r) = t := by
  unfold c_str
  rw [List.takeWhile_append_of_pos]
  · simp
  · intro a ha
    have hne : a ≠ NUL := fun e => h (e ▸ ha)
    simpa using hne

theorem newline_ne_NUL : '\n' ≠ NUL := by decide

theorem NUL_not_mem_line (t : List Char) (h : NUL ∉ t) : NUL ∉ t ++ ['\n'] := by
  simp only [List.mem_append, List.mem_singleton, not_or]
  exact ⟨h, fun e => newline_ne_NUL e.symm⟩

theorem strlen_line (t : List Char) (h : NUL ∉ t) : strlen (t ++ ['\n']) = t.length + 1 := by
  unfold strlen
  rw [c_str_eq_self _ (NUL_not_mem_line t h)]
  simp

/-- Overwriting the final newline of a ctime string with NUL leaves the text before it. -/
theorem c_str_strip_newline (t : List Char) (h : NUL ∉ t) :
    c_str ((t ++ ['\n']).set (strlen (t ++ ['\n']) - 1) NUL) = t := by
  rw [strlen_line t h, Nat.add_sub_cancel, List.set_append_right _ _ (Nat.le_refl _)]
  simp only [Nat.sub_self, List.set_cons_zero]
  exact c_str_append_NUL t [] h

/-- The chain of insertions appends the texts of the operands in chain order and
touches nothing of the program state but the state of the caller. -/
theorem foldl_shift {σ : Type} (body : List (Operand σ)) (c : Cfg σ) :
    body.foldl Cfg.shift c =
      { log := ⟨c.log.oss_ ++ (fragments body c.sys.user).flatten⟩,
        sys := { c.sys with user := userAfter body c.sys.user } } := by
  induction body generalizing c with
  | nil => simp [fragments, userAfter]
  | cons e es ih =>
    rw [List.foldl_cons, ih]
    simp [Cfg.shift, Log.insert, fragments, userAfter, List.append_assoc]

theorem lookup_some (level : Nat) (h : level ≤ 3) :
    ∃ name, EnumToString[level]? = some name := by
  have h4 : level < EnumToString.length := by simp [EnumToString]; omega
  exact ⟨EnumToString[level], List.getElem?_eq_getElem h4⟩

theorem lookup_levelName (L : log_level_t) : EnumToString[L.toNat]? = some (levelName L) := by
  cases L <;> rfl

theorem Get_some (level : Nat) (time_cstr name : List Char) (hts : strlen time_cstr ≠ 0)
    (hname : EnumToString[level]? = some name) :
    Log.ctor.Get level time_cstr = some ⟨preambleOf name time_cstr⟩ := by
  simp [Log.Get, Log.preamble_, hts, hname, Log.insert, Log.ctor, preambleOf]

theorem mod_range (level : Nat) (h : level ≤ 3) : level % UINT_RANGE = level := by
  apply Nat.mod_eq_of_lt
  unfold UINT_RANGE
  omega

/-- What a LOG statement that passes the gate does, when Get succeeds. -/
theorem LOG_pass {σ : Type} (level : Nat) (time_cstr : List Char) (body : List (Operand σ))
    (s : Sys σ) (l : Log) (hgate : level ≤ s.reportingLevel)
    (hget : Log.ctor.Get (level % UINT_RANGE) time_cstr = some l) :
    LOG level time_cstr body s =
      some (OutputPolicy.Output (l.oss_ ++ (fragments body s.user).flatten) (s.atDtor body)) := by
  have hg : ¬ level > s.reportingLevel := Nat.not_lt.mpr hgate
  simp [LOG, hg, hget, foldl_shift, Log.dtor, Sys.construct, Sys.atDtor]

theorem LOG_skip {σ : Type} (level : Nat) (time_cstr : List Char) (body : List (Operand σ))
    (s : Sys σ) (h : level > s.reportingLevel) : LOG level time_cstr body s = some s := by
  simp [LOG, h]

theorem Output_outputs {σ : Type} (msg : List Char) (s : Sys σ) :
    (OutputPolicy.Output msg s).outputs = s.outputs ++ [msg] := by
  unfold OutputPolicy.Output
  cases h : s.pStream <;> simp [h]

theorem Output_builders {σ : Type} (msg : List Char) (s : Sys σ) :
    (OutputPolicy.Output msg s).builders = s.builders := by
  unfold OutputPolicy.Output
  cases h : s.pStream <;> simp [h]

theorem Output_user {σ : Type} (msg : List Char) (s : Sys σ) :
    (OutputPolicy.Output msg s).user = s.user := by
  unfold OutputPolicy.Output
  cases h : s.pStream <;> simp [h]

theorem Output_pStream {σ : Type} (msg : List Char) (s : Sys σ) :
    (OutputPolicy.Output msg s).pStream = s.pStream := by
  unfold OutputPolicy.Output
  cases h : s.pStream <;> simp [h]

theorem Output_reportingLevel {σ : Type} (msg : List Char) (s : Sys σ) :
    (OutputPolicy.Output msg s).reportingLevel = s.reportingLevel := by
  unfold OutputPolicy.Output
  cases h : s.pStream <;> simp [h]

theorem Output_files_set {σ : Type} (msg : List Char) (s : Sys σ) (h : Nat)
    (hs : s.pStream = some h) :
    (OutputPolicy.Output msg s).files h =
      s.files h ++ [FileOp.write (c_str msg), FileOp.flush] := by
  simp [OutputPolicy.Output, hs, fflush, fprintf_s]

theorem Output_files_other {σ : Type} (msg : List Char) (s : Sys σ) (h : Nat)
    (hs : s.pStream ≠ some h) : (OutputPolicy.Output msg s).files h = s.files h := by
  unfold OutputPolicy.Output
  cases hp : s.pStream with
  | none => simp [hp]
  | some k =>
    have hk : h ≠ k := fun e => hs (by rw [hp, e])
    simp [hp, Function.update_noteq hk]

theorem Output_null {σ : Type} (msg : List Char) (s : Sys σ) (hs : s.pStream = none) :
    OutputPolicy.Output msg s = { s with outputs := s.outputs ++ [msg] } := by
  simp [OutputPolicy.Output, hs]

theorem content_append (a b : List FileOp) : content (a ++ b) = content a ++ content b := by
  simp [content]

theorem toNat_le_three (L : log_level_t) : L.toNat ≤ 3 := by
  cases L <;> decide

/-- A LOG statement at a level of the table, with a non-empty ctime string, passes the
gate exactly when the level is at most the threshold; then it constructs one builder
and invokes Output once, on the preamble followed by the texts of the operands. -/
theorem LOG_emit {σ : Type} (level : Nat) (time_cstr : List Char) (body : List (Operand σ))
    (s : Sys σ) (hgate : level ≤ s.reportingLevel) (hlevel : level ≤ 3)
    (hts : strlen time_cstr ≠ 0) :
    ∃ name, EnumToString[level]? = some name ∧
      LOG level time_cstr body s =
        some (OutputPolicy.Output (preambleOf name time_cstr ++ (fragments body s.user).flatten)
          (s.atDtor body)) := by
  obtain ⟨name, hname⟩ := lookup_some level hlevel
  refine ⟨name, hname, ?_⟩
  have hget : Log.ctor.Get (level % UINT_RANGE) time_cstr =
      some ⟨preambleOf name time_cstr⟩ := by
    rw [mod_range level hlevel]
    exact Get_some level time_cstr name hts hname
  exact LOG_pass level time_cstr body s _ hgate hget

theorem fragments_lit {σ : Type} (frags : List (List Char)) (u : σ) :
    fragments (frags.map lit) u = frags := by
  induction frags with
  | nil => rfl
  | cons f fs ih => simp [fragments, lit, ih]

theorem foldl_insert (frags : List (List Char)) (l : Log) :
    (frags.foldl Log.insert l).oss_ = l.oss_ ++ frags.flatten := by
  induction frags generalizing l with
  | nil => simp
  | cons f fs ih => simp [ih, Log.insert, List.append_assoc]

/-- On NUL-free text Output appends all of the text to the stream that is set, then flushes. -/
theorem Output_exact_of_no_NUL {σ : Type} (msg : List Char) (s : Sys σ) (h : Nat)
    (hs : s.pStream = some h) (hnul : NUL ∉ msg) :
    (OutputPolicy.Output msg s).files h = s.files h ++ [FileOp.write msg, FileOp.flush] ∧
      content ((OutputPolicy.Output msg s).files h) = content (s.files h) ++ msg := by
  rw [Output_files_set msg s h hs, c_str_eq_self msg hnul]
  simp [content, FileOp.bytes]

/-- What one LOG statement at a level of the table does to the sink: the threshold and
the stream pointer stay, Output is invoked on no text or on one text, streams other than
the one set are untouched, and the one set grows by the C string of that text. -/
theorem LOG_sink {σ : Type} (level : Nat) (time_cstr : List Char) (body : List (Operand σ))
    (s : Sys σ) (hlevel : level ≤ 3) (hts : strlen time_cstr ≠ 0) :
    ∃ s1 texts, LOG level time_cstr body s = some s1 ∧
      s1.outputs = s.outputs ++ texts ∧ s1.pStream = s.pStream ∧
      s1.reportingLevel = s.reportingLevel ∧
      (∀ h, s.pStream ≠ some h → s1.files h = s.files h) ∧
      (∀ n, s.pStream = some n →
        content (s1.files n) = content (s.files n) ++ (texts.map c_str).flatten) := by
  by_cases hgate : level ≤ s.reportingLevel
  · obtain ⟨name, _, hrun⟩ := LOG_emit level time_cstr body s hgate hlevel hts
    refine ⟨_, [preambleOf name time_cstr ++ (fragments body s.user).flatten], hrun,
      ?_, ?_, ?_, ?_, ?_⟩
    · rw [Output_outputs]
      rfl
    · rw [Output_pStream]
      rfl
    · rw [Output_reportingLevel]
      rfl
    · intro h hh
      rw [Output_files_other _ (s.atDtor body) h hh]
      rfl
    · intro n hn
      rw [Output_files_set _ (s.atDtor body) n hn, content_append]
      simp [content, FileOp.bytes, Sys.construct, Sys.atDtor]
  · refine ⟨s, [], LOG_skip level time_cstr body s (by omega), ?_, rfl, rfl, ?_, ?_⟩
    · simp
    · intro h _
      rfl
    · intro n _
      simp

theorem runCalls_sink {σ : Type} (calls : List (Call σ)) (s : Sys σ)
    (hwf : ∀ c ∈ calls, c.level ≤ 3 ∧ strlen c.time_cstr ≠ 0) :
    ∃ s1 texts, runCalls calls s = some s1 ∧
      s1.outputs = s.outputs ++ texts ∧ s1.pStream = s.pStream ∧
      s1.reportingLevel = s.reportingLevel ∧
      (∀ h, s.pStream ≠ some h → s1.files h = s.files h) ∧
      (∀ n, s.pStream = some n →
        content (s1.files n) = content (s.files n) ++ (texts.map c_str).flatten) := by
  induction calls generalizing s with
  | nil => exact ⟨s, [], rfl, by simp, rfl, rfl, fun _ _ => rfl, fun _ _ => by simp⟩
  | cons c cs ih =>
    have hc := hwf c (List.mem_cons_self c cs)
    obtain ⟨s1, t1, hrun1, ho1, hp1, hr1, hf1, hn1⟩ :=
      LOG_sink c.level c.time_cstr c.body s hc.1 hc.2
    obtain ⟨s2, t2, hrun2, ho2, hp2, hr2, hf2, hn2⟩ :=
      ih s1 (fun d hd => hwf d (List.mem_cons_of_mem c hd))
    refine ⟨s2, t1 ++ t2, ?_, ?_, ?_, ?_, ?_, ?_⟩
    · simp [runCalls, hrun1, hrun2]
    · rw [ho2, ho1, List.append_assoc]
    · rw [hp2, hp1]
    · rw [hr2, hr1]
    · intro h hh
      rw [hf2 h (by rw [hp1]; exact hh), hf1 h hh]
    · intro n hn
      rw [hn2 n (by rw [hp1]; exact hn), hn1 n hn]
      simp [List.append_assoc]

/-! ## The claims -/

/-- C1: for levels L and thresholds T among ERROR, WARN, INFO and DEBUG, a LOG(L)
statement is emitted (one builder is constructed and its text is handed to Output) if
and only if the ordinal of L is at most the ordinal of T. -/
theorem LOG_emitted_iff {σ : Type} (L T : log_level_t) (time_cstr : List Char)
    (body : List (Operand σ)) (s : Sys σ) (hT : s.reportingLevel = T.toNat)
    (hts : strlen time_cstr ≠ 0) :
    (∃ s1 text, LOG L.toNat time_cstr body s = some s1 ∧ s1.builders = s.builders + 1 ∧
        s1.outputs = s.outputs ++ [text]) ↔ L.toNat ≤ T.toNat := by
  constructor
  · rintro ⟨s1, text, hrun, hb, _⟩
    by_contra hgt
    have hskip := LOG_skip L.toNat time_cstr body s (by rw [hT]; omega)
    rw [hskip] at hrun
    cases hrun
    omega
  · intro hle
    obtain ⟨name, _, hrun⟩ :=
      LOG_emit L.toNat time_cstr body s (by rw [hT]; exact hle) (toNat_le_three L) hts
    refine ⟨_, preambleOf name time_cstr ++ (fragments body s.user).flatten, hrun, ?_, ?_⟩
    · rw [Output_builders]
      rfl
    · rw [Output_outputs]
      rfl

theorem LOG_emitted_iff_witness :
    strlen "Wed Jun  9 10:30:00 2021\n".toList ≠ 0 ∧
    ((∃ s1 text, LOG log_level_t.WARN.toNat "Wed Jun  9 10:30:00 2021\n".toList
          [lit "x".toList] (Sys.init (fun _ => []) ()) = some s1 ∧
        s1.builders = (Sys.init (fun _ => []) ()).builders + 1 ∧
        s1.outputs = (Sys.init (fun _ => []) ()).outputs ++ [text]) ↔
      log_level_t.WARN.toNat ≤ log_level_t.INFO.toNat) :=
  ⟨by decide, LOG_emitted_iff log_level_t.WARN log_level_t.INFO _ _ _ rfl (by decide)⟩

/-- C2: for every level L, every ctime string t followed by one newline and every body,
the text an emitted LOG(L) statement hands to Output is " - ", the name of L, ": ",
t, ": " and then the texts of the body in order, with nothing after them. -/
theorem emitted_text_format {σ : Type} (L : log_level_t) (t : List Char)
    (body : List (Operand σ)) (s : Sys σ) (hgate : L.toNat ≤ s.reportingLevel)
    (hnul : NUL ∉ t) :
    ∃ s1, LOG L.toNat (t ++ ['\n']) body s = some s1 ∧
      s1.outputs = s.outputs ++
        [" - ".toList ++ levelName L ++ ": ".toList ++ t ++ ": ".toList ++
          (fragments body s.user).flatten] := by
  have hts : strlen (t ++ ['\n']) ≠ 0 := by rw [strlen_line t hnul]; omega
  obtain ⟨name, hname, hrun⟩ :=
    LOG_emit L.toNat (t ++ ['\n']) body s hgate (toNat_le_three L) hts
  rw [lookup_levelName] at hname
  cases hname
  refine ⟨_, hrun, ?_⟩
  rw [Output_outputs]
  simp [preambleOf, c_str_strip_newline t hnul, Sys.construct, Sys.atDtor]

theorem emitted_text_format_witness :
    log_level_t.ERROR.toNat ≤ (Sys.init (fun _ => []) ()).reportingLevel ∧
    NUL ∉ "Wed Jun  9 10:30:00 2021".toList ∧
    ∃ s1, LOG log_level_t.ERROR.toNat ("Wed Jun  9 10:30:00 2021".toList ++ ['\n'])
        [lit "disk full".toList] (Sys.init (fun _ => []) ()) = some s1 ∧
      s1.outputs = (Sys.init (fun _ => []) ()).outputs ++
        [" - ".toList ++ levelName log_level_t.ERROR ++ ": ".toList ++
          "Wed Jun  9 10:30:00 2021".toList ++ ": ".toList ++
          (fragments [lit "disk full".toList] (Sys.init (fun _ => []) ()).user).flatten] :=
  ⟨by decide, by decide,
    emitted_text_format log_level_t.ERROR "Wed Jun  9 10:30:00 2021".toList
      [lit "disk full".toList] (Sys.init (fun _ => []) ()) (by decide) (by decide)⟩

/-- C3: an emitted log statement invokes Output exactly once, at the destruction of the
builder, on the complete buffer (the preamble followed by the whole body); once the
builder is constructed and after any number of insertions the record of Output
invocations and every stream are what they were before the statement. -/
theorem Output_once_at_end {σ : Type} (level : Nat) (time_cstr : List Char)
    (body : List (Operand σ)) (s : Sys σ) (hgate : level ≤ s.reportingLevel)
    (hlevel : level ≤ 3) (hts : strlen time_cstr ≠ 0) :
    ∃ l s1, Log.ctor.Get (level % UINT_RANGE) time_cstr = some l ∧
      LOG level time_cstr body s = some s1 ∧
      s1.outputs = s.outputs ++ [l.oss_ ++ (fragments body s.user).flatten] ∧
      (s.construct.outputs = s.outputs ∧ s.construct.files = s.files) ∧
      ∀ k, ((body.take k).foldl Cfg.shift ⟨l, s.construct⟩).sys.outputs = s.outputs ∧
        ((body.take k).foldl Cfg.shift ⟨l, s.construct⟩).sys.files = s.files := by
  obtain ⟨name, hname⟩ := lookup_some level hlevel
  have hget : Log.ctor.Get (level % UINT_RANGE) time_cstr =
      some ⟨preambleOf name time_cstr⟩ := by
    rw [mod_range level hlevel]
    exact Get_some level time_cstr name hts hname
  refine ⟨_, _, hget, LOG_pass level time_cstr body s _ hgate hget, ?_, ⟨rfl, rfl⟩, ?_⟩
  · rw [Output_outputs]
    rfl
  · intro k
    rw [foldl_shift]
    exact ⟨rfl, rfl⟩

theorem Output_once_at_end_witness :
    (2 : Nat) ≤ (Sys.init (fun _ => []) (0 : Nat)).reportingLevel ∧ (2 : Nat) ≤ 3 ∧
    strlen "Wed Jun  9 10:30:00 2021\n".toList ≠ 0 ∧
    ∃ l s1, Log.ctor.Get (2 % UINT_RANGE) "Wed Jun  9 10:30:00 2021\n".toList = some l ∧
      LOG 2 "Wed Jun  9 10:30:00 2021\n".toList
        [lit "Vowels(): ".toList, fun n => (n + 1, ['a']), lit ['\n']]
        (Sys.init (fun _ => []) (0 : Nat)) = some s1 ∧
      s1.outputs = (Sys.init (fun _ => []) (0 : Nat)).outputs ++
        [l.oss_ ++ (fragments [lit "Vowels(): ".toList, fun n => (n + 1, ['a']), lit ['\n']]
          (Sys.init (fun _ => []) (0 : Nat)).user).flatten] ∧
      ((Sys.init (fun _ => []) (0 : Nat)).construct.outputs =
          (Sys.init (fun _ => []) (0 : Nat)).outputs ∧
        (Sys.init (fun _ => []) (0 : Nat)).construct.files =
          (Sys.init (fun _ => []) (0 : Nat)).files) ∧
      ∀ k, ((List.take k [lit "Vowels(): ".toList, fun n => (n + 1, ['a']), lit ['\n']]).foldl
            Cfg.shift ⟨l, (Sys.init (fun _ => []) (0 : Nat)).construct⟩).sys.outputs =
          (Sys.init (fun _ => []) (0 : Nat)).outputs ∧
        ((List.take k [lit "Vowels(): ".toList, fun n => (n + 1, ['a']), lit ['\n']]).foldl
            Cfg.shift ⟨l, (Sys.init (fun _ => []) (0 : Nat)).construct⟩).sys.files =
          (Sys.init (fun _ => []) (0 : Nat)).files :=
  ⟨by decide, by decide, by decide,
    Output_once_at_end 2 "Wed Jun  9 10:30:00 2021\n".toList
      [lit "Vowels(): ".toList, fun n => (n + 1, ['a']), lit ['\n']]
      (Sys.init (fun _ => []) (0 : Nat)) (by decide) (by decide) (by decide)⟩

/-- C4: a LOG statement whose level is above the threshold constructs no builder,
evaluates no operand of the body and leaves the streams and the rest of the state as
they were: the state after the statement is the state before it. -/
theorem LOG_suppressed_unchanged {σ : Type} (level : Nat) (time_cstr : List Char)
    (body : List (Operand σ)) (s : Sys σ) (h : level > s.reportingLevel) :
    LOG level time_cstr body s = some s :=
  LOG_skip level time_cstr body s h

theorem LOG_suppressed_unchanged_witness :
    log_level_t.DEBUG.toNat > (Sys.init (fun _ => []) (0 : Nat)).reportingLevel ∧
    LOG log_level_t.DEBUG.toNat "Wed Jun  9 10:30:00 2021\n".toList
        [fun counter => (counter + 1, "trace X".toList)] (Sys.init (fun _ => []) (0 : Nat)) =
      some (Sys.init (fun _ => []) (0 : Nat)) :=
  ⟨by decide, LOG_suppressed_unchanged log_level_t.DEBUG.toNat _ _ _ (by decide)⟩

/-- C5: when the fragments of a list are inserted into a builder in list order, the text
the emitted statement hands to Output is the preamble followed by the concatenation of
the fragments in that order; it is a function of the preamble and the list alone. -/
theorem fragments_concatenated {σ : Type} (level : Nat) (time_cstr : List Char)
    (frags : List (List Char)) (s : Sys σ) (hgate : level ≤ s.reportingLevel)
    (hlevel : level ≤ 3) (hts : strlen time_cstr ≠ 0) :
    ∃ l s1, Log.ctor.Get (level % UINT_RANGE) time_cstr = some l ∧
      (frags.foldl Log.insert l).oss_ = l.oss_ ++ frags.flatten ∧
      LOG level time_cstr (frags.map lit) s = some s1 ∧
      s1.outputs = s.outputs ++ [l.oss_ ++ frags.flatten] := by
  obtain ⟨name, hname⟩ := lookup_some level hlevel
  have hget : Log.ctor.Get (level % UINT_RANGE) time_cstr =
      some ⟨preambleOf name time_cstr⟩ := by
    rw [mod_range level hlevel]
    exact Get_some level time_cstr name hts hname
  refine ⟨_, _, hget, foldl_insert frags _, LOG_pass level time_cstr _ s _ hgate hget, ?_⟩
  rw [Output_outputs, fragments_lit]
  rfl

theorem fragments_concatenated_witness :
    (2 : Nat) ≤ (Sys.init (fun _ => []) ()).reportingLevel ∧ (2 : Nat) ≤ 3 ∧
    strlen "Wed Jun  9 10:30:00 2021\n".toList ≠ 0 ∧
    ∃ l s1, Log.ctor.Get (2 % UINT_RANGE) "Wed Jun  9 10:30:00 2021\n".toList = some l ∧
      (List.foldl Log.insert l [['a'], ['b'], ['c']]).oss_ =
        l.oss_ ++ [['a'], ['b'], ['c']].flatten ∧
      LOG 2 "Wed Jun  9 10:30:00 2021\n".toList ([['a'], ['b'], ['c']].map lit)
        (Sys.init (fun _ => []) ()) = some s1 ∧
      s1.outputs = (Sys.init (fun _ => []) ()).outputs ++
        [l.oss_ ++ [['a'], ['b'], ['c']].flatten] :=
  ⟨by decide, by decide, by decide,
    fragments_concatenated 2 "Wed Jun  9 10:30:00 2021\n".toList [['a'], ['b'], ['c']]
      (Sys.init (fun _ => []) ()) (by decide) (by decide) (by decide)⟩

/-- C6: evaluation of Output at a text with an embedded NUL, the stream stderr being
set: the stream receives the characters before the NUL only, not the whole text. -/
theorem Output_stops_at_NUL :
    (OutputPolicy.Output ['a', NUL, 'b', '\n'] (Sys.init (fun _ => []) ())).files stderr =
      [FileOp.write ['a'], FileOp.flush] ∧
    content
        ((OutputPolicy.Output ['a', NUL, 'b', '\n'] (Sys.init (fun _ => []) ())).files stderr) ≠
      content ((Sys.init (fun _ => []) ()).files stderr) ++ ['a', NUL, 'b', '\n'] := by
  constructor
  · rw [Output_files_set _ _ stderr rfl]
    decide
  · rw [Output_files_set _ _ stderr rfl]
    decide

/-- C7: after SetStream(new), a sequence of log statements leaves every stream other
than new with the operations it had before SetStream (so the former target keeps its
content), the stream new receives the texts handed to Output, and SetStream itself
issues no operation on any stream. -/
theorem SetStream_redirects {σ : Type} (calls : List (Call σ)) (s : Sys σ)
    (new : Option Nat) (old : Nat) (hne : new ≠ some old)
    (hwf : ∀ c ∈ calls, c.level ≤ 3 ∧ strlen c.time_cstr ≠ 0) :
    (OutputPolicy.SetStream new s).files = s.files ∧
    ∃ s1 texts, runCalls calls (OutputPolicy.SetStream new s) = some s1 ∧
      s1.outputs = s.outputs ++ texts ∧
      s1.files old = s.files old ∧
      (∀ h, new ≠ some h → s1.files h = s.files h) ∧
      (∀ n, new = some n →
        content (s1.files n) = content (s.files n) ++ (texts.map c_str).flatten) := by
  refine ⟨rfl, ?_⟩
  obtain ⟨s1, texts, hrun, ho, _, _, hf, hn⟩ :=
    runCalls_sink calls (OutputPolicy.SetStream new s) hwf
  exact ⟨s1, texts, hrun, ho, hf old hne, hf, hn⟩

theorem SetStream_redirects_witness :
    some 5 ≠ some stderr ∧
    ((OutputPolicy.SetStream (some 5) (Sys.init (fun _ => []) ())).files =
        (Sys.init (fun _ => []) ()).files ∧
    ∃ s1 texts,
      runCalls [⟨2, "Wed Jun  9 10:30:00 2021\n".toList, [lit "x".toList]⟩,
          ⟨3, "Wed Jun  9 10:30:01 2021\n".toList, [lit "y".toList]⟩]
        (OutputPolicy.SetStream (some 5) (Sys.init (fun _ => []) ())) = some s1 ∧
      s1.outputs = (Sys.init (fun _ => []) ()).outputs ++ texts ∧
      s1.files stderr = (Sys.init (fun _ => []) ()).files stderr ∧
      (∀ h, some 5 ≠ some h → s1.files h = (Sys.init (fun _ => []) ()).files h) ∧
      (∀ n, some 5 = some n →
        content (s1.files n) =
          content ((Sys.init (fun _ => []) ()).files n) ++ (texts.map c_str).flatten)) :=
  ⟨by decide,
    SetStream_redirects
      [⟨2, "Wed Jun  9 10:30:00 2021\n".toList, [lit "x".toList]⟩,
        ⟨3, "Wed Jun  9 10:30:01 2021\n".toList, [lit "y".toList]⟩]
      (Sys.init (fun _ => []) ()) (some 5) stderr (by decide) (by decide)⟩

/-- C8: in the initial state the threshold is INFO; a LOG(DEBUG) statement leaves the
state as it is, and each of LOG(INFO), LOG(WARN) and LOG(ERROR) hands one text to
Output, which appends a non-empty run of characters to stderr. -/
theorem default_threshold_INFO {σ : Type} (files : Nat → List FileOp) (user : σ)
    (time_cstr : List Char) (body : List (Operand σ)) (hts : strlen time_cstr ≠ 0) :
    (Sys.init files user).reportingLevel = log_level_t.INFO.toNat ∧
    LOG log_level_t.DEBUG.toNat time_cstr body (Sys.init files user) =
      some (Sys.init files user) ∧
    ∀ L : log_level_t, L ≠ log_level_t.DEBUG →
      ∃ s1 text, LOG L.toNat time_cstr body (Sys.init files user) = some s1 ∧
        s1.outputs = [text] ∧
        content (s1.files stderr) = content (files stderr) ++ c_str text ∧
        c_str text ≠ [] := by
  refine ⟨rfl, LOG_skip _ _ _ _ (by show 2 < 3; decide), ?_⟩
  intro L hL
  have hgate : L.toNat ≤ (Sys.init files user).reportingLevel := by
    cases L
    · show 0 ≤ 2; decide
    · show 1 ≤ 2; decide
    · show 2 ≤ 2; decide
    · exact absurd rfl hL
  obtain ⟨name, _, hrun⟩ :=
    LOG_emit L.toNat time_cstr body (Sys.init files user) hgate (toNat_le_three L) hts
  refine ⟨_, preambleOf name time_cstr ++ (fragments body user).flatten, hrun, ?_, ?_, ?_⟩
  · rw [Output_outputs]
    rfl
  · rw [Output_files_set _ ((Sys.init files user).atDtor body) stderr rfl, content_append]
    simp [content, FileOp.bytes, Sys.construct, Sys.init, Sys.atDtor]
  · simp [preambleOf, c_str, List.takeWhile, NUL]

theorem default_threshold_INFO_witness :
    strlen "Wed Jun  9 10:30:00 2021\n".toList ≠ 0 ∧
    ((Sys.init (fun _ => []) ()).reportingLevel = log_level_t.INFO.toNat ∧
    LOG log_level_t.DEBUG.toNat "Wed Jun  9 10:30:00 2021\n".toList [lit "trace X".toList]
        (Sys.init (fun _ => []) ()) = some (Sys.init (fun _ => []) ()) ∧
    ∀ L : log_level_t, L ≠ log_level_t.DEBUG →
      ∃ s1 text, LOG L.toNat "Wed Jun  9 10:30:00 2021\n".toList [lit "trace X".toList]
          (Sys.init (fun _ => []) ()) = some s1 ∧
        s1.outputs = [text] ∧
        content (s1.files stderr) = content ((fun _ => []) stderr) ++ c_str text ∧
        c_str text ≠ []) :=
  ⟨by decide, default_threshold_INFO (fun _ => []) () _ _ (by decide)⟩

/-- C10: with a threshold of at most 3, a level that passes the gate of LOG is at most
3 and the lookup of its name in EnumToString, made by preamble_ on the level converted
to unsigned, is inside the table of four entries; a level above 3 is suppressed by the
gate, so the statement leaves the state as it is and makes no lookup; hence, for a
non-empty ctime string, the statement has a defined result at every level. -/
theorem gate_keeps_lookup_in_range {σ : Type} (L : Nat) (time_cstr : List Char)
    (body : List (Operand σ)) (s : Sys σ) (hT : s.reportingLevel ≤ 3) :
    (¬ L > s.reportingLevel →
      L ≤ 3 ∧ L % UINT_RANGE < EnumToString.length ∧
        ∃ name, EnumToString[L % UINT_RANGE]? = some name) ∧
    (3 < L → LOG L time_cstr body s = some s) ∧
    (strlen time_cstr ≠ 0 → ∃ s1, LOG L time_cstr body s = some s1) := by
  refine ⟨?_, ?_, ?_⟩
  · intro hpass
    have hL : L ≤ 3 := by omega
    rw [mod_range L hL]
    exact ⟨hL, by simp [EnumToString]; omega, lookup_some L hL⟩
  · intro hL
    exact LOG_skip L time_cstr body s (by omega)
  · intro hts
    by_cases hgate : L ≤ s.reportingLevel
    · obtain ⟨_, _, hrun⟩ := LOG_emit L time_cstr body s hgate (by omega) hts
      exact ⟨_, hrun⟩
    · exact ⟨s, LOG_skip L time_cstr body s (by omega)⟩

theorem gate_keeps_lookup_in_range_witness :
    (Sys.init (fun _ => []) ()).reportingLevel ≤ 3 ∧
    ((¬ 7 > (Sys.init (fun _ => []) ()).reportingLevel →
      7 ≤ 3 ∧ 7 % UINT_RANGE < EnumToString.length ∧
        ∃ name, EnumToString[7 % UINT_RANGE]? = some name) ∧
    (3 < 7 → LOG 7 "Wed Jun  9 10:30:00 2021\n".toList [lit "x".toList]
        (Sys.init (fun _ => []) ()) = some (Sys.init (fun _ => []) ())) ∧
    (strlen "Wed Jun  9 10:30:00 2021\n".toList ≠ 0 →
      ∃ s1, LOG 7 "Wed Jun  9 10:30:00 2021\n".toList [lit "x".toList]
        (Sys.init (fun _ => []) ()) = some s1)) :=
  ⟨by decide, gate_keeps_lookup_in_range 7 _ _ _ (by decide)⟩

end Logger
